import Mathlib

/-!
Shallow embedding of the evm-cfg-py repository.

Sources embedded:
  * `cfg_static_complete.py` — `SimpleStackValueAnalyzer` and
    `StaticCompleteCFGBuilder`.
  * `cfg_transaction.py` — `CFGConstructor`.
  * `cfg_contract.py` — `ContractCFGConnector`.
  * `evm_information.py` — `TraceFormatter.get_standardized_trace`.

`basic_block.py` and `cfg_structure.py` are imported by the sources but are
absent from the repository snapshot; the `Block`, `CFG`, `BlockNode`, `Edge`
data structures and the `add_node` / `add_edge` / `remove_node` operations are
modelled from the specification (sections 3 and 4.8), which describes them.

Program counters and hex-string pcs: the Python code stores pcs as canonical
hex strings produced by `Web3.to_hex` (minimal, lowercase, `0x`-prefixed) and
converts back with `int(pc, 16)`; this round-trip is the identity, so pcs are
embedded directly as `Nat`.
-/

/-- An instruction as produced by the external disassembler `pyevmasm`
(`disassemble_all`): a pc, a mnemonic name, and the PUSH immediate operand
(only read for PUSH instructions; 0 elsewhere). The disassembler is an
external library, so instruction lists are taken as input. -/
structure Instr where
  pc : Nat
  name : String
  operand : Int
deriving DecidableEq, Repr

/-- Python's `s.startswith(p)`, computed over the character list (the
core-library `String` primitives do not reduce inside the kernel, so string
operations are embedded via `String.data`). -/
def strStarts (s p : String) : Bool := s.data.take p.data.length == p.data

/-- Python's `int(s[k:])` for the digit suffixes of opcode names
(`DUP1`..`DUP16`, `SWAP1`..`SWAP16`, `PUSH1`..`PUSH32`): drop the first `k`
characters and read the rest as a decimal numeral; `none` when the suffix is
empty or not all digits (where Python `int` would raise). -/
def natSuffix? (s : String) (k : Nat) : Option Nat :=
  let l := s.data.drop k
  if l.isEmpty then none
  else if l.all (fun c => c.isDigit) then
    some (l.foldl (fun a c => a * 10 + (c.toNat - 48)) 0)
  else none

/-- Outcome of simulating one instruction inside
`SimpleStackValueAnalyzer.get_jump_target`'s loop:
`cont s` continues the loop with the new stack, `halt` is the `return None`
taken on abstract-stack underflow, `brk` is the `break` taken on an
unsupported opcode. -/
inductive StepRes where
  | cont (s : List Int)
  | halt
  | brk
deriving DecidableEq, Repr

/-- Python's in-place swap `stack[-1], stack[-n-1] = stack[-n-1], stack[-1]`.
The abstract stack is embedded with its top at the head (the Python list keeps
the top at the end), so the swapped positions are 0 and `n`. -/
def swapTop (s : List Int) (n : Nat) : List Int :=
  match s.get? 0, s.get? n with
  | some a, some b => (s.set 0 b).set n a
  | _, _ => s

/-- The arithmetic of `cfg_static_complete.py` lines 89-100: `num1` is the
popped top of the stack (`val1`), `num2` the element beneath it (`val2`);
`DIV` is Python floor division `//` with the explicit divide-by-zero guard. -/
def arithOp (name : String) (num2 num1 : Int) : Int :=
  if name = "ADD" then num2 + num1
  else if name = "SUB" then num2 - num1
  else if name = "MUL" then num2 * num1
  else if num1 = 0 then 0 else Int.fdiv num2 num1

/-- One iteration of the loop body of `SimpleStackValueAnalyzer.get_jump_target`
(`cfg_static_complete.py` lines 54-108). The branch order mirrors the source:
PUSH, DUP, SWAP, POP, {ADD,SUB,MUL,DIV}, otherwise `break`.

The Python `DUP` branch reads `stack[n - 1]`, i.e. the n-th element from the
*bottom* of its list; with the top at the head this is position
`s.length - n`. (`pyevmasm` emits only DUP1..DUP16 and SWAP1..SWAP16, so the
name suffix always parses; the unreachable parse-failure branches are mapped
to `halt`.) -/
def svaStep (i : Instr) (s : List Int) : StepRes :=
  if strStarts i.name "PUSH" then .cont (i.operand :: s)
  else if strStarts i.name "DUP" then
    match natSuffix? i.name 3 with
    | some n =>
      if n ≤ s.length then
        match s.get? (s.length - n) with
        | some v => .cont (v :: s)
        | none => .halt
      else .halt
    | none => .halt
  else if strStarts i.name "SWAP" then
    match natSuffix? i.name 4 with
    | some n => if n + 1 ≤ s.length then .cont (swapTop s n) else .halt
    | none => .halt
  else if i.name = "POP" then
    match s with
    | _ :: t => .cont t
    | [] => .halt
  else if i.name = "ADD" ∨ i.name = "SUB" ∨ i.name = "MUL" ∨ i.name = "DIV" then
    match s with
    | num1 :: num2 :: rest => .cont (arithOp i.name num2 num1 :: rest)
    | _ => .halt
  else .brk

/-- The simulation loop of `get_jump_target`: the instruction list is passed
in the order Python iterates it (`reversed(instructions[:index])`).
`none` is the mid-loop `return None`; `some s` is the stack left either by
loop exhaustion or by the `break` on an unsupported opcode. -/
def svaLoop : List Instr → List Int → Option (List Int)
  | [], s => some s
  | i :: rest, s =>
    match svaStep i s with
    | .cont s' => svaLoop rest s'
    | .halt => none
    | .brk => some s

/-- The dict comprehension `{instr.pc: instr for instr in self.instructions}`
followed by `.get(pc)`: on duplicate pcs the later entry wins. -/
def instrByPc (instrs : List Instr) (pc : Nat) : Option Instr :=
  (instrs.filter (fun i => i.pc = pc)).getLast?

/-- `SimpleStackValueAnalyzer.get_jump_target` (`cfg_static_complete.py`
lines 37-114). The slice `instructions[:instructions.index(jump_instr)]` is
embedded as `takeWhile (·.pc < jump_pc)`: `disassemble_all` emits
instructions in strictly increasing pc order, so the elements before the
jump instruction's position are exactly those with a smaller pc. The loop
runs over that slice *reversed*, and the final `stack[-1]` is the head of
the embedded stack. -/
def get_jump_target (instrs : List Instr) (jump_pc : Nat) : Option Int :=
  match instrByPc instrs jump_pc with
  | none => none
  | some j =>
    if j.name = "JUMP" ∨ j.name = "JUMPI" then
      match svaLoop ((instrs.takeWhile (fun i => i.pc < jump_pc)).reverse) [] with
      | some s => s.head?
      | none => none
    else none

/-- Modelled from the spec: one step of the *forward* abstract simulation
prescribed by section 4.3 (`basic_block.py`-independent; this definition
follows the spec's words, for comparison with `get_jump_target`): PUSH
pushes the immediate, DUPn duplicates the n-th element from the *top*
(1-indexed), SWAPn exchanges the top with the element at depth n+1, POP pops,
the four arithmetic opcodes pop two and push (deeper element is the left
operand, DIV by zero yields 0), any other opcode and any underflow abort
with unknown (`none`). -/
def svaStepSpec (i : Instr) (s : List Int) : Option (List Int) :=
  if strStarts i.name "PUSH" then some (i.operand :: s)
  else if strStarts i.name "DUP" then
    match natSuffix? i.name 3 with
    | some n => if 1 ≤ n then (s.get? (n - 1)).map (· :: s) else none
    | none => none
  else if strStarts i.name "SWAP" then
    match natSuffix? i.name 4 with
    | some n => if n + 1 ≤ s.length then some (swapTop s n) else none
    | none => none
  else if i.name = "POP" then
    match s with
    | _ :: t => some t
    | [] => none
  else if i.name = "ADD" ∨ i.name = "SUB" ∨ i.name = "MUL" ∨ i.name = "DIV" then
    match s with
    | num1 :: num2 :: rest => some (arithOp i.name num2 num1 :: rest)
    | _ => none
  else none

/-- Modelled from the spec: the forward simulation loop of section 4.3,
iterating the preceding instructions in their original forward order. -/
def svaLoopSpec : List Instr → List Int → Option (List Int)
  | [], s => some s
  | i :: rest, s =>
    match svaStepSpec i s with
    | some s' => svaLoopSpec rest s'
    | none => none

/-- Modelled from the spec: section 4.3's resolver — collect the contract's
instructions up to and excluding the jump site in forward order, simulate
forward on an initially empty abstract stack, and return the post-simulation
top of stack (unknown when the stack is empty). -/
def get_jump_target_spec (instrs : List Instr) (jump_pc : Nat) : Option Int :=
  match instrByPc instrs jump_pc with
  | none => none
  | some j =>
    if j.name = "JUMP" ∨ j.name = "JUMPI" then
      match svaLoopSpec (instrs.takeWhile (fun i => i.pc < jump_pc)) [] with
      | some s => s.head?
      | none => none
    else none

/-- Scenario S2 of the spec: bytecode `6001 6008 57 00 5B 00`
(PUSH1 1, PUSH1 8, JUMPI, STOP, JUMPDEST, STOP), disassembled. -/
def s2Instrs : List Instr :=
  [⟨0, "PUSH1", 1⟩, ⟨2, "PUSH1", 8⟩, ⟨4, "JUMPI", 0⟩,
   ⟨5, "STOP", 0⟩, ⟨6, "JUMPDEST", 0⟩, ⟨7, "STOP", 0⟩]

/-- Modelled from the spec: `basic_block.py` is absent from the snapshot;
section 3's BasicBlock carries the contract address, the start pc and the
ordered `(pc, mnemonic)` instruction list (the fields the CFG builders read;
`end_pc` and `terminator` are derived and unused by them). -/
structure Block where
  address : String
  start_pc : Nat
  instructions : List (Nat × String)
deriving DecidableEq, Repr

/-- Modelled from the spec: `cfg_structure.py` is absent; a `BlockNode` wraps
the basic block it displays (`node.address`, `node.start_pc` etc. delegate to
`base_block`). -/
structure BlockNode where
  base_block : Block
deriving DecidableEq, Repr

/-- Modelled from the spec: section 3's Edge quadruple. -/
structure Edge where
  edge_id : Nat
  source : BlockNode
  target : BlockNode
  edge_type : String
deriving DecidableEq, Repr

/-- Modelled from the spec: section 3's CFG — ordered node and edge
collections plus the monotonically increasing edge-id counter
(`_next_edge_id`), starting at 0. -/
structure CFG where
  tx_hash : String
  nodes : List BlockNode
  edges : List Edge
  next_edge_id : Nat
deriving DecidableEq, Repr

/-- Modelled from the spec: `CFG.add_node` appends the node (section 4.8). -/
def add_node (cfg : CFG) (n : BlockNode) : CFG :=
  { cfg with nodes := cfg.nodes ++ [n] }

/-- Modelled from the spec: `CFG.add_edge` creates an edge carrying the fresh
monotonic id and appends it (section 4.8). -/
def add_edge (cfg : CFG) (source target : BlockNode) (edgeType : String) : CFG :=
  { cfg with edges := cfg.edges ++ [⟨cfg.next_edge_id, source, target, edgeType⟩],
             next_edge_id := cfg.next_edge_id + 1 }

/-- Modelled from the spec: `CFG.remove_node` removes the node and every edge
whose source or target is that node (sections 3 and 4.8). -/
def remove_node (cfg : CFG) (n : BlockNode) : CFG :=
  { cfg with nodes := cfg.nodes.filter (fun m => m ≠ n),
             edges := cfg.edges.filter (fun e => e.source ≠ n ∧ e.target ≠ n) }

/-- `StaticCompleteCFGBuilder._get_edge_type`: the edge-type dictionary with
default `"UNKNOWN"`. -/
def getEdgeType (opcode : String) : String :=
  if opcode = "JUMP" then "JUMP"
  else if opcode = "JUMPI" then "JUMPI"
  else if opcode = "CALL" then "CALL"
  else if opcode = "CALLCODE" then "CALL"
  else if opcode = "DELEGATECALL" then "DELEGATECALL"
  else if opcode = "STATICCALL" then "STATICCALL"
  else if opcode = "RETURN" then "RETURN"
  else if opcode = "REVERT" then "REVERT"
  else if opcode = "SELFDESTRUCT" then "DESTRUCT"
  else if opcode = "STOP" then "TERMINATE"
  else if opcode = "INVALID" then "INVALID"
  else if opcode = "CREATE" then "CREATE"
  else if opcode = "CREATE2" then "CREATE"
  else if opcode = "SEQUENCE" then "SEQUENCE"
  else if opcode = "CONDITION_TRUE" then "CONDITION_TRUE"
  else if opcode = "CONDITION_FALSE" then "CONDITION_FALSE"
  else "UNKNOWN"

/-- `StaticCompleteCFGBuilder._get_opcode_length`: PUSHn is 1+n bytes (1 when
the suffix fails to parse, where Python catches `ValueError`), everything
else 1 byte. -/
def getOpcodeLength (opcode : String) : Nat :=
  if strStarts opcode "PUSH" then
    match natSuffix? opcode 4 with
    | some n => 1 + n
    | none => 1
  else 1

/-- The `block_by_start_pc` dictionary lookup: built by iterating the block
list in order, so on duplicate `(address, start_pc)` keys the later block
wins. -/
def blockByStartPc (blocks : List Block) (a : String) (spc : Nat) : Option Block :=
  (blocks.filter (fun b => b.address == a && b.start_pc == spc)).getLast?

/-- The `pc_to_start_pc` dictionary lookup: `(address, pc) -> start_pc` for
every instruction pc of every block, later blocks overwriting earlier ones. -/
def pcToStartPc (blocks : List Block) (a : String) (pc : Nat) : Option Nat :=
  ((blocks.filter
      (fun b => b.address == a && b.instructions.any (fun q => q.1 == pc))).getLast?).map
    (·.start_pc)

/-- `_find_block_by_pc` (and `ContractCFGConnector`'s identical two-step
lookup): locate the owning block's start pc, then the block; a miss at either
step raises `ValueError`/`KeyError`, embedded as `none`. -/
def findBlockByPc (blocks : List Block) (a : String) (pc : Nat) : Option Block :=
  match pcToStartPc blocks a pc with
  | some spc => blockByStartPc blocks a spc
  | none => none

/-- The `node_map` lookup of `build_static_cfg`: the node stored for a key is
the `BlockNode` of the last block with that key. -/
def nodeOfKey (blocks : List Block) (a : String) (spc : Nat) : Option BlockNode :=
  (blockByStartPc blocks a spc).map BlockNode.mk

/-- `node_map[(block.address, block.start_pc)]` for a block taken from the
list itself; the default branch is unreachable when `b ∈ blocks`. -/
def srcNode (blocks : List Block) (b : Block) : BlockNode :=
  (nodeOfKey blocks b.address b.start_pc).getD (BlockNode.mk b)

/-- `StaticCompleteCFGBuilder._connect_blocks`: append an edge carrying
`cfg._next_edge_id` and increment the counter. -/
def connectBlocks (cfg : CFG) (source target : BlockNode) (edgeType : String) : CFG :=
  { cfg with edges := cfg.edges ++ [⟨cfg.next_edge_id, source, target, edgeType⟩],
             next_edge_id := cfg.next_edge_id + 1 }

/-- The per-block edge-synthesis rules of `build_static_cfg`
(`cfg_static_complete.py` lines 232-333), as the list of `(target, type)`
pairs connected from the block's node, in creation order.

  * The `in node_map` re-checks of the source are omitted: every block found
    by `findBlockByPc` comes from the same list that populates `node_map`,
    so its key is always present and the stored node is `BlockNode.mk` of
    that same (canonical last) block.
  * A negative analyzer result is rendered by `Web3.to_hex` as `-0x…`, which
    matches no `pc_to_start_pc` key; hence the `0 ≤ t` guard.
  * The self-loop comparison `target_node != current_node` is Python object
    identity on `node_map` values, which coincides with structural equality
    of the wrapped canonical blocks. -/
def blockOutEdges (instrs : List Instr) (blocks : List Block) (b : Block) :
    List (BlockNode × String) :=
  match b.instructions.getLast? with
  | none => []
  | some (pc, term) =>
    if term = "JUMPI" then
      (match findBlockByPc blocks b.address (pc + getOpcodeLength "JUMPI") with
       | some fb => [(BlockNode.mk fb, getEdgeType "CONDITION_FALSE")]
       | none => []) ++
      (match get_jump_target instrs pc with
       | some t =>
         match (if 0 ≤ t then findBlockByPc blocks b.address t.toNat else none) with
         | some tb =>
           if BlockNode.mk tb ≠ srcNode blocks b then
             [(BlockNode.mk tb, getEdgeType "CONDITION_TRUE")]
           else []
         | none => []
       | none => [])
    else if term = "JUMP" then
      match get_jump_target instrs pc with
      | some t =>
        match (if 0 ≤ t then findBlockByPc blocks b.address t.toNat else none) with
        | some tb =>
          if BlockNode.mk tb ≠ srcNode blocks b then
            [(BlockNode.mk tb, getEdgeType "JUMP")]
          else []
        | none => []
      | none => []
    else if term = "STOP" ∨ term = "RETURN" ∨ term = "REVERT" ∨ term = "INVALID" ∨
            term = "SELFDESTRUCT" then []
    else if term = "CALL" ∨ term = "CALLCODE" ∨ term = "DELEGATECALL" ∨
            term = "STATICCALL" ∨ term = "CREATE" ∨ term = "CREATE2" then
      match findBlockByPc blocks b.address (pc + getOpcodeLength term) with
      | some nb => [(BlockNode.mk nb, getEdgeType term)]
      | none => []
    else
      match findBlockByPc blocks b.address (pc + getOpcodeLength term) with
      | some nb => [(BlockNode.mk nb, getEdgeType "SEQUENCE")]
      | none => []

/-- Install one block's synthesized edges into the CFG via `_connect_blocks`. -/
def addBlockEdges (instrs : List Instr) (blocks : List Block) (cfg : CFG) (b : Block) : CFG :=
  (blockOutEdges instrs blocks b).foldl
    (fun c p => connectBlocks c (srcNode blocks b) p.1 p.2) cfg

/-- Phases 1 and 2 of `build_static_cfg`: one node per block, then the
per-block edge synthesis, before unreachable-block pruning. `addr` is the
builder's `contract_address` (the first block's address, or a bytecode-derived
fallback when the block list is empty; it only feeds the CFG identifier). -/
def staticSynth (instrs : List Instr) (blocks : List Block) (addr : String) : CFG :=
  blocks.foldl (addBlockEdges instrs blocks)
    ⟨"static_complete_" ++ addr, blocks.map BlockNode.mk, [], 0⟩

/-- `has_incoming_edge`: some edge of the CFG targets the node. -/
def hasIncoming (cfg : CFG) (n : BlockNode) : Bool :=
  cfg.edges.any (fun e => e.target == n)

/-- The removal test of `remove_unreachable_instruction_blocks`: no incoming
edge, start pc not 0, and a first instruction that exists and is not
JUMPDEST. -/
def shouldRemove (cfg : CFG) (n : BlockNode) : Bool :=
  !hasIncoming cfg n && n.base_block.start_pc != 0 &&
    (match n.base_block.instructions.head? with
     | some (_, op) => op != "JUMPDEST"
     | none => false)

/-- `StaticCompleteCFGBuilder.remove_unreachable_instruction_blocks`: collect
`to_remove` against the CFG as it stands (single pass), then remove each
node (cascading to its incident edges via `remove_node`). -/
def remove_unreachable_instruction_blocks (cfg : CFG) : CFG :=
  (cfg.nodes.filter (shouldRemove cfg)).foldl remove_node cfg

/-- `StaticCompleteCFGBuilder.build_static_cfg`: synthesis followed by
pruning. -/
def build_static_cfg (instrs : List Instr) (blocks : List Block) (addr : String) : CFG :=
  remove_unreachable_instruction_blocks (staticSynth instrs blocks addr)

/-- A normalized trace step (`StandardizedStep` of `evm_information.py`):
address, pc, opcode, normalized stack. -/
structure Step where
  address : String
  pc : Nat
  opcode : String
  stack : List String
deriving DecidableEq, Repr

/-- `_get_edge_type` shared (textually identical) by `CFGConstructor`
(`cfg_transaction.py`) and `ContractCFGConnector` (`cfg_contract.py`). -/
def dynEdgeType (opcode : String) : String :=
  if opcode = "JUMP" ∨ opcode = "JUMPI" then "JUMP"
  else if opcode = "CALL" ∨ opcode = "CALLCODE" ∨ opcode = "DELEGATECALL" ∨
          opcode = "STATICCALL" then "CALL"
  else if opcode = "RETURN" ∨ opcode = "REVERT" then "RETURN"
  else if opcode = "SELFDESTRUCT" then "DESTRUCT"
  else if opcode = "STOP" ∨ opcode = "INVALID" then "TERMINATE"
  else if opcode = "CREATE" ∨ opcode = "CREATE2" then "CREATE"
  else "UNKNOWN"

/-- `CFGConstructor.split_opcodes` (`cfg_transaction.py` lines 20-23). -/
def txSplitOpcodes : List String :=
  ["JUMP", "JUMPI", "CALL", "CALLCODE", "DELEGATECALL", "STATICCALL",
   "CREATE", "CREATE2", "STOP", "RETURN", "REVERT", "INVALID", "SELFDESTRUCT"]

/-- `ContractCFGConnector.split_opcodes` (`cfg_contract.py` lines 31-34).
Note the source's last entry really is the misspelled `"SELFdestruct"`. -/
def contractSplitOpcodes : List String :=
  ["JUMP", "JUMPI", "CALL", "CALLCODE", "DELEGATECALL", "STATICCALL",
   "CREATE", "CREATE2", "STOP", "RETURN", "REVERT", "INVALID", "SELFdestruct"]

/-- `next_node_key in processed_nodes`: every processed node is also added to
`cfg.nodes`, and conversely, so key membership is checked against the CFG's
node list. -/
def hasNodeKey (cfg : CFG) (a : String) (spc : Nat) : Bool :=
  cfg.nodes.any (fun n => n.base_block.address == a && n.base_block.start_pc == spc)

/-- The while-loop of `CFGConstructor.construct_cfg` (`cfg_transaction.py`
lines 58-97), over the remaining steps. On a split opcode: stop at the trace
end; resolve the next step's `(address, pc)` as a block *start* pc; on a miss
print a warning and skip (state unchanged, index advanced); otherwise reuse
or create the next node, add the edge, and move to the next node. All paths
advance the index by exactly one. -/
def txLoop (blocks : List Block) : List Step → CFG → BlockNode → CFG
  | [], cfg, _ => cfg
  | s :: rest, cfg, cur =>
    if s.opcode ∈ txSplitOpcodes then
      match rest with
      | [] => cfg
      | nxt :: _ =>
        match blockByStartPc blocks nxt.address nxt.pc with
        | none => txLoop blocks rest cfg cur
        | some nb =>
          let nnode := BlockNode.mk nb
          let cfg1 := if hasNodeKey cfg nb.address nb.start_pc then cfg
                      else add_node cfg nnode
          txLoop blocks rest (add_edge cfg1 cur nnode (dynEdgeType s.opcode)) nnode
    else txLoop blocks rest cfg cur

/-- `CFGConstructor.construct_cfg` (`cfg_transaction.py` lines 32-99). An
empty step list returns the empty CFG; a first step whose `(address, pc)` is
not a known block *start* raises `RuntimeError`, embedded as `.error`;
otherwise the first node is created and the loop runs from index 0. -/
def construct_cfg (blocks : List Block) (txHash : String) (steps : List Step) :
    Except String CFG :=
  let cfg : CFG := ⟨txHash, [], [], 0⟩
  match steps with
  | [] => .ok cfg
  | s0 :: _ =>
    match blockByStartPc blocks s0.address s0.pc with
    | none => .error "failed to initialize the first block"
    | some b0 =>
      .ok (txLoop blocks steps (add_node cfg (BlockNode.mk b0)) (BlockNode.mk b0))

/-- The while-loop of `ContractCFGConnector.connect_contract_cfg`
(`cfg_contract.py` lines 68-108): as `txLoop`, except the split-opcode set is
`contractSplitOpcodes` and the next step's pc is resolved through
`pc_to_start_pc` (any instruction pc, not only block starts). -/
def contractLoop (blocks : List Block) : List Step → CFG → BlockNode → CFG
  | [], cfg, _ => cfg
  | s :: rest, cfg, cur =>
    if s.opcode ∈ contractSplitOpcodes then
      match rest with
      | [] => cfg
      | nxt :: _ =>
        match findBlockByPc blocks nxt.address nxt.pc with
        | none => contractLoop blocks rest cfg cur
        | some nb =>
          let nnode := BlockNode.mk nb
          let cfg1 := if hasNodeKey cfg nb.address nb.start_pc then cfg
                      else add_node cfg nnode
          contractLoop blocks rest (add_edge cfg1 cur nnode (dynEdgeType s.opcode)) nnode
    else contractLoop blocks rest cfg cur

/-- `ContractCFGConnector.connect_contract_cfg` (`cfg_contract.py` lines
43-110). The CFG identifier is derived from the contract address (the first
block's address, `""` when the block list is empty). An empty block list *or*
an empty step list returns the empty CFG; otherwise a first step that
resolves to no block (through `pc_to_start_pc`) raises `RuntimeError`,
embedded as `.error`. -/
def connect_contract_cfg (blocks : List Block) (steps : List Step) :
    Except String CFG :=
  let addr := match blocks.head? with
              | some b => b.address
              | none => ""
  let cfg : CFG := ⟨"contract_" ++ addr, [], [], 0⟩
  if blocks.isEmpty || steps.isEmpty then .ok cfg
  else
    match steps with
    | [] => .ok cfg
    | s0 :: _ =>
      match findBlockByPc blocks s0.address s0.pc with
      | none => .error "failed to initialize the first block"
      | some b0 =>
        .ok (contractLoop blocks steps (add_node cfg (BlockNode.mk b0)) (BlockNode.mk b0))

/-- A raw `structLogs` record consumed by
`TraceFormatter.get_standardized_trace`: integer pc, opcode string, and the
wire-order stack (top of stack last, per the trace provider). -/
structure RawStep where
  pc : Nat
  op : String
  stack : List String
deriving DecidableEq, Repr

/-- A normalized trace (`StandardizedTrace`). -/
structure Trace where
  tx_hash : String
  steps : List Step
deriving DecidableEq, Repr

/-- ASCII lower-casing of one character (kernel-reducible replacement for the
core primitive). -/
def lowerChar (c : Char) : Char :=
  if 'A' ≤ c ∧ c ≤ 'Z' then Char.ofNat (c.toNat + 32) else c

/-- ASCII upper-casing of one character. -/
def upperChar (c : Char) : Char :=
  if 'a' ≤ c ∧ c ≤ 'z' then Char.ofNat (c.toNat - 32) else c

/-- Python's `str.lower` over the character list. -/
def lowerStr (s : String) : String := ⟨s.data.map lowerChar⟩

/-- Python's `str.upper` over the character list (`step.get("op", "").upper()`). -/
def upperStr (s : String) : String := ⟨s.data.map upperChar⟩

/-- A hexadecimal digit. -/
def isHexChar (c : Char) : Bool :=
  c.isDigit || ('a' ≤ c && c ≤ 'f') || ('A' ≤ c && c ≤ 'F')

/-- `TraceFormatter._normalize_address`: `Web3.to_checksum_address` accepts
exactly the `0x`-prefixed 40-hex-digit strings (any letter case); the result
is lower-cased. Anything else — including the empty string — yields `""`. -/
def normalize_address (a : String) : String :=
  if strStarts a "0x" && a.data.length == 42 && (a.data.drop 2).all isHexChar
  then lowerStr a else ""

/-- `TraceFormatter._normalize_stack`: an empty item becomes the bare `"0x"`;
items keep an existing `0x` prefix, otherwise one is prepended. -/
def normalize_stack (raw : List String) : List String :=
  raw.map (fun item =>
    if item = "" then "0x"
    else if strStarts item "0x" then item
    else "0x" ++ item)

/-- The address-tracking state of `get_standardized_trace`: `current` labels
the step being emitted, `next_addr` is the Python `next_address` variable
(carried across iterations — the source leaves it stale in some branches),
and the call stack keeps its top at the head (Python appends and pops at the
end of its list). -/
structure TraceState where
  current : String
  next_addr : String
  call_stack : List String
deriving DecidableEq, Repr

/-- The branch ladder of `get_standardized_trace` (`evm_information.py` lines
100-124), computing the state for the next step:

  1. CALL/CALLCODE/DELEGATECALL/STATICCALL with at least two raw stack items
     whose second-from-top (`raw_stack[-2]`) normalizes to a non-empty
     address: push `current`, switch `next` to the callee. When either guard
     fails, nothing is updated (so `next` keeps its previous value).
  2. CREATE/CREATE2: the extracted `new_address` is the stubbed `""`, so the
     `if new_address:` body never runs.
  3. A terminator with call-stack depth > 1: `next` becomes the call-stack
     top, which is popped.
  4. Anything else (including terminators at depth ≤ 1): `next = current`. -/
def traceUpdate (st : TraceState) (opcode : String) (rawStack : List String) :
    TraceState :=
  if opcode = "CALL" ∨ opcode = "CALLCODE" ∨ opcode = "DELEGATECALL" ∨
     opcode = "STATICCALL" then
    if 2 ≤ rawStack.length then
      let to_address := normalize_address ((rawStack.get? (rawStack.length - 2)).getD "")
      if to_address ≠ "" then
        ⟨st.current, to_address, st.current :: st.call_stack⟩
      else st
    else st
  else if opcode = "CREATE" ∨ opcode = "CREATE2" then st
  else if (opcode = "STOP" ∨ opcode = "RETURN" ∨ opcode = "REVERT" ∨
           opcode = "INVALID" ∨ opcode = "SELFDESTRUCT") ∧
          1 < st.call_stack.length then
    ⟨st.current, st.call_stack.headD "", st.call_stack.tail⟩
  else ⟨st.current, st.current, st.call_stack⟩

/-- One iteration of the trace loop: *emit* a `Step` labelled with the
pre-update `current` (the record is appended before line 135's
`current_address = next_address`), then adopt `next` as the new `current`. -/
def traceStep (st : TraceState) (raw : RawStep) : Step × TraceState :=
  let opcode := upperStr raw.op
  let st1 := traceUpdate st opcode raw.stack
  (⟨st.current, raw.pc, opcode, normalize_stack raw.stack⟩,
   ⟨st1.next_addr, st1.next_addr, st1.call_stack⟩)

/-- The `for step in struct_logs` loop, emitting the standardized steps. -/
def traceLoop : TraceState → List RawStep → List Step
  | _, [] => []
  | st, r :: rest =>
    let p := traceStep st r
    p.1 :: traceLoop p.2 rest

/-- `TraceFormatter.get_standardized_trace` (`evm_information.py` lines
72-140), with the RPC boundary factored out: `dest` is the transaction's
destination address (`_get_initial_address`) and `logs` the `structLogs`
records. `current`, `next_address` and the call stack are initialized from
the normalized destination. -/
def get_standardized_trace (dest : String) (txHash : String)
    (logs : List RawStep) : Trace :=
  let initial := normalize_address dest
  ⟨txHash, traceLoop ⟨initial, initial, if initial ≠ "" then [initial] else []⟩ logs⟩

/-- Disassembly of bytecode `00 6004 56 5b` (STOP, PUSH1 4, JUMP, JUMPDEST):
the jump's preceding instruction sequence contains the unsupported STOP. -/
def c2Instrs : List Instr :=
  [⟨0, "STOP", 0⟩, ⟨1, "PUSH1", 4⟩, ⟨3, "JUMP", 0⟩, ⟨4, "JUMPDEST", 0⟩]

/-- Disassembly of bytecode `6004 56 01 5b 00`
(PUSH1 4, JUMP, ADD, JUMPDEST, STOP). -/
def exInstrs : List Instr :=
  [⟨0, "PUSH1", 4⟩, ⟨2, "JUMP", 0⟩, ⟨3, "ADD", 0⟩, ⟨4, "JUMPDEST", 0⟩, ⟨5, "STOP", 0⟩]

/-- Entry block of `exInstrs`: PUSH1 4; JUMP (jumps over `exX` to `exY`). -/
def exW : Block := ⟨"0xa", 0, [(0, "PUSH1"), (2, "JUMP")]⟩

/-- Dead block of `exInstrs`: the ADD at pc 3 — no incoming edge, not the
entry, not JUMPDEST-led; its fall-through reaches `exY`. -/
def exX : Block := ⟨"0xa", 3, [(3, "ADD")]⟩

/-- JUMPDEST block of `exInstrs`. -/
def exY : Block := ⟨"0xa", 4, [(4, "JUMPDEST"), (5, "STOP")]⟩

/-- Block list handed to the static builder; `exX` first, so its SEQUENCE
edge receives id 0 and the entry's JUMP edge receives id 1. -/
def exBlocks : List Block := [exX, exW, exY]

/-- Basic blocks of the S2 bytecode `6001 6008 57 00 5B 00`. -/
def s2B0 : Block := ⟨"0xa", 0, [(0, "PUSH1"), (2, "PUSH1"), (4, "JUMPI")]⟩

/-- First STOP block of S2. -/
def s2B1 : Block := ⟨"0xa", 5, [(5, "STOP")]⟩

/-- JUMPDEST block of S2. -/
def s2B2 : Block := ⟨"0xa", 6, [(6, "JUMPDEST"), (7, "STOP")]⟩

/-- The S2 block list. -/
def s2Blocks : List Block := [s2B0, s2B1, s2B2]

/-- A block terminated by SELFDESTRUCT, at the entry. -/
def c6B0 : Block := ⟨"0xa", 0, [(0, "SELFDESTRUCT")]⟩

/-- The block following it. -/
def c6B1 : Block := ⟨"0xa", 1, [(1, "STOP")]⟩

/-- Block list shared by both dynamic builders in the SELFDESTRUCT scenario. -/
def c6Blocks : List Block := [c6B0, c6B1]

/-- A two-step trace: SELFDESTRUCT in `c6B0`, then a step in `c6B1`. -/
def c6Steps : List Step :=
  [⟨"0xa", 0, "SELFDESTRUCT", []⟩, ⟨"0xa", 1, "STOP", []⟩]

/-- A valid (already normalized) destination address. -/
def c7Dest : String := "0x00000000000000000000000000000000000000aa"

/-- A valid address appearing as the second-from-top stack item of a CALL. -/
def c7B : String := "0x00000000000000000000000000000000000000bb"

/-- Raw trace: a CALL whose second-from-top stack item (`"0x1"`, wire order
keeps the top last) is not a valid address, then one more step. -/
def c7Logs : List RawStep := [⟨0, "CALL", ["0x1", "0x2"]⟩, ⟨1, "STOP", []⟩]

/-- C1: the claim says `get_jump_target` collects the instructions preceding
the jump site in their original forward order and simulates them forward; the
source iterates them in *reversed* order (`cfg_static_complete.py` line 53).
On the spec's own scenario S2 the code resolves the JUMPI at pc 4 to 1 (the
pushed condition), while the forward simulation prescribed by the spec
resolves it to 8 (the pushed target). -/
theorem c1_reverse_order_divergence :
    get_jump_target s2Instrs 4 = some 1 ∧ get_jump_target_spec s2Instrs 4 = some 8 := by
  decide

/-- C2 counterexample: the preceding sequence of the JUMP at pc 3 of
`c2Instrs` contains the unsupported STOP (first conjunct: simulating it from
the stack the scan has built yields the `break`), yet `get_jump_target`
returns `some 4` rather than aborting with no target. -/
theorem c2_unsupported_opcode_still_resolves :
    svaStep ⟨0, "STOP", 0⟩ [4] = StepRes.brk ∧ get_jump_target c2Instrs 3 = some 4 := by
  decide

/-- C2 amended: an unsupported opcode stops the analyzer's (backward) scan
but keeps the stack accumulated so far — the loop returns the current stack
unchanged, whatever instructions remain; the target is then its top, unknown
only when that stack is empty (or an earlier underflow aborted). -/
theorem c2_unsupported_opcode_stops_scan (i : Instr) (rest : List Instr)
    (s : List Int) (h : svaStep i s = StepRes.brk) :
    svaLoop (i :: rest) s = some s := by
  simp [svaLoop, h]

/-- C2 witness: the amended theorem applied at a concrete unsupported opcode
(SLOAD) with a non-empty accumulated stack. -/
theorem c2_unsupported_opcode_stops_scan_witness :
    svaStep ⟨0, "SLOAD", 0⟩ [7] = StepRes.brk ∧
    svaLoop [⟨0, "SLOAD", 0⟩] [7] = some [7] :=
  ⟨by decide, c2_unsupported_opcode_stops_scan _ [] _ (by decide)⟩

/-- C9: on a stack with at least two elements, ADD/SUB/MUL/DIV pop two and
push the result with the deeper element (`b`) as the left operand and the
popped top (`a`) as the right operand; DIV is integer (floor) division and
yields 0 when the divisor — the popped top — is 0. -/
theorem c9_arith_operand_order (pc : Nat) (op a b : Int) (rest : List Int) :
    svaStep ⟨pc, "ADD", op⟩ (a :: b :: rest) = .cont ((b + a) :: rest) ∧
    svaStep ⟨pc, "SUB", op⟩ (a :: b :: rest) = .cont ((b - a) :: rest) ∧
    svaStep ⟨pc, "MUL", op⟩ (a :: b :: rest) = .cont ((b * a) :: rest) ∧
    svaStep ⟨pc, "DIV", op⟩ (a :: b :: rest) =
      .cont ((if a = 0 then 0 else Int.fdiv b a) :: rest) :=
  ⟨rfl, rfl, rfl, rfl⟩

/-- C6: on the same SELFDESTRUCT-then-successor input the transaction-level
builder adds one DESTRUCT edge while the per-contract builder adds no edge at
all — its split-opcode set (`cfg_contract.py` line 33) contains the
misspelled `"SELFdestruct"` instead of `"SELFDESTRUCT"`, so SELFDESTRUCT
steps never trigger the block switch, contradicting the builders-behave-
identically intent stated by the class's own docstring and the spec. -/
theorem c6_selfdestruct_edge_dropped :
    (construct_cfg c6Blocks "0xt" c6Steps).map (fun c => c.edges.map Edge.edge_type) =
      .ok ["DESTRUCT"] ∧
    (connect_contract_cfg c6Blocks c6Steps).map (fun c => c.edges) = .ok [] ∧
    "SELFDESTRUCT" ∈ txSplitOpcodes ∧ "SELFDESTRUCT" ∉ contractSplitOpcodes :=
  ⟨rfl, rfl, by decide, by decide⟩

/-- C5 counterexample: after pruning, the static CFG built from `exBlocks`
keeps only the edge with id 1 (the removed dead block owned edge 0), so the
surviving edge ids are not the contiguous range `[0, E)`. -/
theorem c5_pruned_ids_not_contiguous :
    (build_static_cfg exInstrs exBlocks "0xa").edges.map Edge.edge_id ≠
      List.range (build_static_cfg exInstrs exBlocks "0xa").edges.length := by
  decide

/-- C10 counterexample: the per-contract builder, given an *empty* block list
and a non-empty step list whose first step therefore belongs to no known
block, returns an empty CFG instead of raising a fatal error (the guard at
`cfg_contract.py` line 46 fires before the first-block resolution). -/
theorem c10_empty_blocks_no_fatal :
    connect_contract_cfg ([] : List Block) [⟨"0xa", 0, "STOP", []⟩] =
      .ok ⟨"contract_", [], [], 0⟩ := rfl

/-- C7 counterexample: a CALL step whose second-from-top raw stack item
(`"0x1"`) is not a valid address leaves the next step's label unchanged
(both steps are labelled with the destination), rather than labelling the
next step with that raw item as the claim states unconditionally. -/
theorem c7_invalid_callee_label_unchanged :
    (get_standardized_trace c7Dest "0xt" c7Logs).steps.map Step.address =
      [c7Dest, c7Dest] ∧ c7Dest ≠ "0x1" := by
  decide

/-- One edge appended by `_connect_blocks`, carrying the current counter. -/
theorem connectBlocks_edges (c : CFG) (s t : BlockNode) (ty : String) :
    (connectBlocks c s t ty).edges = c.edges ++ [⟨c.next_edge_id, s, t, ty⟩] := rfl

/-- Edges already present survive the per-block connection fold. -/
theorem edges_mono_connect_fold (src : BlockNode) (l : List (BlockNode × String))
    (c : CFG) :
    c.edges ⊆ (l.foldl (fun c p => connectBlocks c src p.1 p.2) c).edges := by
  induction l generalizing c with
  | nil => exact fun e he => he
  | cons p l ih =>
    intro e he
    refine ih (connectBlocks c src p.1 p.2) ?_
    rw [connectBlocks_edges]
    exact List.mem_append_left _ he

/-- Edges already present survive `addBlockEdges`. -/
theorem edges_mono_addBlockEdges (instrs : List Instr) (blocks : List Block)
    (c : CFG) (b : Block) : c.edges ⊆ (addBlockEdges instrs blocks c b).edges :=
  edges_mono_connect_fold _ _ c

/-- Edges already present survive the whole edge-synthesis fold. -/
theorem edges_mono_block_fold (instrs : List Instr) (blocks : List Block)
    (l : List Block) (c : CFG) :
    c.edges ⊆ (l.foldl (addBlockEdges instrs blocks) c).edges := by
  induction l generalizing c with
  | nil => exact fun e he => he
  | cons b l ih =>
    intro e he
    exact ih _ (edges_mono_addBlockEdges instrs blocks c b he)

/-- Every `(target, type)` pair handed to the connection fold ends up as an
edge from the given source. -/
theorem mem_connect_fold (src : BlockNode) (l : List (BlockNode × String))
    (c : CFG) (p : BlockNode × String) (hp : p ∈ l) :
    ∃ e ∈ (l.foldl (fun c q => connectBlocks c src q.1 q.2) c).edges,
      e.source = src ∧ e.target = p.1 ∧ e.edge_type = p.2 := by
  induction l generalizing c with
  | nil => cases hp
  | cons q l ih =>
    rcases List.mem_cons.mp hp with rfl | hp
    · refine ⟨⟨c.next_edge_id, src, p.1, p.2⟩, ?_, rfl, rfl, rfl⟩
      refine edges_mono_connect_fold src l _ ?_
      rw [connectBlocks_edges]
      exact List.mem_append_right _ (List.mem_singleton.mpr rfl)
    · exact ih _ hp

/-- Every pair of `blockOutEdges` becomes an edge of the CFG returned by
`addBlockEdges`. -/
theorem mem_addBlockEdges (instrs : List Instr) (blocks : List Block) (c : CFG)
    (b : Block) (p : BlockNode × String) (hp : p ∈ blockOutEdges instrs blocks b) :
    ∃ e ∈ (addBlockEdges instrs blocks c b).edges,
      e.source = srcNode blocks b ∧ e.target = p.1 ∧ e.edge_type = p.2 :=
  mem_connect_fold _ _ c p hp

/-- Every pair synthesized for a block of the fold list becomes an edge of
the resulting CFG. -/
theorem mem_block_fold (instrs : List Instr) (blocks : List Block)
    (l : List Block) (c : CFG) (b : Block) (hb : b ∈ l) (p : BlockNode × String)
    (hp : p ∈ blockOutEdges instrs blocks b) :
    ∃ e ∈ (l.foldl (addBlockEdges instrs blocks) c).edges,
      e.source = srcNode blocks b ∧ e.target = p.1 ∧ e.edge_type = p.2 := by
  induction l generalizing c with
  | nil => cases hb
  | cons b0 l ih =>
    rcases List.mem_cons.mp hb with rfl | hb
    · obtain ⟨e, he, hprops⟩ := mem_addBlockEdges instrs blocks c b p hp
      exact ⟨e, edges_mono_block_fold instrs blocks l _ he, hprops⟩
    · exact ih _ hb

/-- C3: for a block terminated by JUMPI at pc, the static edge synthesis
adds a CONDITION_FALSE edge to the block containing pc+1 whenever that block
exists, adds a CONDITION_TRUE edge to the block containing the
analyzer-resolved target whenever the target is resolved, non-negative and
inside some block and that block's node differs from the source, and never
emits a CONDITION_TRUE pair targeting the source node itself. -/
theorem c3_jumpi_edges (instrs : List Instr) (blocks : List Block) (addr : String)
    (b : Block) (pc : Nat) (hb : b ∈ blocks)
    (hterm : b.instructions.getLast? = some (pc, "JUMPI")) :
    (∀ fb, findBlockByPc blocks b.address (pc + 1) = some fb →
       ∃ e ∈ (staticSynth instrs blocks addr).edges,
         e.source = srcNode blocks b ∧ e.target = BlockNode.mk fb ∧
         e.edge_type = "CONDITION_FALSE") ∧
    (∀ t tb, get_jump_target instrs pc = some t → 0 ≤ t →
       findBlockByPc blocks b.address t.toNat = some tb →
       BlockNode.mk tb ≠ srcNode blocks b →
       ∃ e ∈ (staticSynth instrs blocks addr).edges,
         e.source = srcNode blocks b ∧ e.target = BlockNode.mk tb ∧
         e.edge_type = "CONDITION_TRUE") ∧
    (∀ p ∈ blockOutEdges instrs blocks b, p.2 = "CONDITION_TRUE" →
       p.1 ≠ srcNode blocks b) := by
  have hlen : getOpcodeLength "JUMPI" = 1 := by decide
  have hcf : getEdgeType "CONDITION_FALSE" = "CONDITION_FALSE" := rfl
  have hct : getEdgeType "CONDITION_TRUE" = "CONDITION_TRUE" := rfl
  have hne_cf : ("CONDITION_FALSE" : String) ≠ "CONDITION_TRUE" := by decide
  refine ⟨?_, ?_, ?_⟩
  · intro fb hfb
    unfold staticSynth
    refine mem_block_fold instrs blocks blocks _ b hb (BlockNode.mk fb, "CONDITION_FALSE") ?_
    unfold blockOutEdges
    rw [hterm]
    simp only [hlen, hfb, hcf]
    exact List.mem_append_left _ (List.mem_singleton.mpr rfl)
  · intro t tb ht hpos htb hne
    unfold staticSynth
    refine mem_block_fold instrs blocks blocks _ b hb (BlockNode.mk tb, "CONDITION_TRUE") ?_
    unfold blockOutEdges
    rw [hterm]
    simp only [ht, if_pos hpos, htb, hct, if_pos hne]
    exact List.mem_append_right _ (List.mem_singleton.mpr rfl)
  · intro p hp htrue
    unfold blockOutEdges at hp
    rw [hterm] at hp
    simp only at hp
    rcases h2 : get_jump_target instrs pc with _ | t <;>
      rcases h1 : findBlockByPc blocks b.address (pc + getOpcodeLength "JUMPI") with _ | fb <;>
        simp only [h1, h2] at hp
    · simp at hp
    · simp at hp
      subst hp
      exact absurd htrue hne_cf
    · rcases h3 : (if (0:Int) ≤ t then findBlockByPc blocks b.address t.toNat else none) with
        _ | tb <;> simp only [h3] at hp
      · simp at hp
      · by_cases h4 : BlockNode.mk tb ≠ srcNode blocks b
        · rw [if_pos h4] at hp
          simp at hp
          subst hp
          exact h4
        · rw [if_neg h4] at hp
          simp at hp
    · rcases h3 : (if (0:Int) ≤ t then findBlockByPc blocks b.address t.toNat else none) with
        _ | tb <;> simp only [h3] at hp
      · simp at hp
        subst hp
        exact absurd htrue hne_cf
      · by_cases h4 : BlockNode.mk tb ≠ srcNode blocks b
        · rw [if_pos h4] at hp
          simp at hp
          rcases hp with hp | hp <;> subst hp
          · exact absurd htrue hne_cf
          · exact h4
        · rw [if_neg h4] at hp
          simp at hp
          subst hp
          exact absurd htrue hne_cf

/-- C3 witness: applied to scenario S2's JUMPI block — the fall-through
CONDITION_FALSE edge to the first-STOP block is present in the synthesized
CFG. -/
theorem c3_jumpi_edges_witness :
    s2B0 ∈ s2Blocks ∧
    ∃ e ∈ (staticSynth s2Instrs s2Blocks "0xa").edges,
      e.source = srcNode s2Blocks s2B0 ∧ e.target = BlockNode.mk s2B1 ∧
      e.edge_type = "CONDITION_FALSE" :=
  ⟨by decide,
   (c3_jumpi_edges s2Instrs s2Blocks "0xa" s2B0 4 (by decide) (by decide)).1 s2B1 (by decide)⟩

/-- A node survives a sequence of `remove_node` calls exactly when it was
present and is not among the removed ones. -/
theorem nodes_foldl_remove (l : List BlockNode) (c : CFG) (n : BlockNode) :
    n ∈ (l.foldl remove_node c).nodes ↔ n ∈ c.nodes ∧ n ∉ l := by
  induction l generalizing c with
  | nil => simp
  | cons x l ih =>
    rw [List.foldl_cons, ih]
    simp only [remove_node, List.mem_filter, decide_eq_true_eq, List.mem_cons]
    tauto

/-- An edge survives a sequence of `remove_node` calls exactly when it was
present and touches none of the removed nodes. -/
theorem edges_foldl_remove (l : List BlockNode) (c : CFG) (e : Edge) :
    e ∈ (l.foldl remove_node c).edges ↔
      e ∈ c.edges ∧ ∀ n ∈ l, e.source ≠ n ∧ e.target ≠ n := by
  induction l generalizing c with
  | nil => simp
  | cons x l ih =>
    rw [List.foldl_cons, ih]
    simp only [remove_node, List.mem_filter, decide_eq_true_eq, List.mem_cons]
    constructor
    · rintro ⟨⟨he, hx⟩, hrest⟩
      refine ⟨he, fun m hm => ?_⟩
      rcases hm with rfl | hm
      · exact hx
      · exact hrest m hm
    · rintro ⟨he, hall⟩
      exact ⟨⟨he, hall x (Or.inl rfl)⟩, fun m hm => hall m (Or.inr hm)⟩

/-- The removal test, decomposed. -/
theorem shouldRemove_iff (cfg : CFG) (n : BlockNode) :
    shouldRemove cfg n = true ↔
      hasIncoming cfg n = false ∧ n.base_block.start_pc ≠ 0 ∧
      ∃ p op, n.base_block.instructions.head? = some (p, op) ∧ op ≠ "JUMPDEST" := by
  unfold shouldRemove
  rcases h : n.base_block.instructions.head? with _ | ⟨p, op⟩
  · simp [h]
  · simp only [h, Bool.and_eq_true, Bool.not_eq_true', bne_iff_ne, Option.some.injEq,
      Prod.mk.injEq]
    constructor
    · rintro ⟨⟨hinc, hstart⟩, hop⟩
      exact ⟨hinc, hstart, p, op, ⟨rfl, rfl⟩, hop⟩
    · rintro ⟨hinc, hstart, q, r, ⟨hq, hr⟩, hop⟩
      subst hq
      subst hr
      exact ⟨⟨hinc, hstart⟩, hop⟩

/-- C4: pruning keeps every node that starts at pc 0 or whose first
instruction is JUMPDEST; a node is removed only if it had no incoming edge,
does not start at pc 0 and does not begin with JUMPDEST; and no surviving
edge touches a removed node. -/
theorem c4_pruning_preserved_nodes (cfg : CFG) (n : BlockNode) (hn : n ∈ cfg.nodes) :
    ((n.base_block.start_pc = 0 ∨
        (∃ p, n.base_block.instructions.head? = some (p, "JUMPDEST"))) →
       n ∈ (remove_unreachable_instruction_blocks cfg).nodes) ∧
    (n ∉ (remove_unreachable_instruction_blocks cfg).nodes →
       hasIncoming cfg n = false ∧ n.base_block.start_pc ≠ 0 ∧
       ∀ p op, n.base_block.instructions.head? = some (p, op) → op ≠ "JUMPDEST") ∧
    (n ∉ (remove_unreachable_instruction_blocks cfg).nodes →
       ∀ e ∈ (remove_unreachable_instruction_blocks cfg).edges,
         e.source ≠ n ∧ e.target ≠ n) := by
  unfold remove_unreachable_instruction_blocks
  have hsr : n ∉ (remove_unreachable_instruction_blocks cfg).nodes →
      shouldRemove cfg n = true := by
    intro hout
    unfold remove_unreachable_instruction_blocks at hout
    by_contra hc
    refine hout ((nodes_foldl_remove _ _ _).mpr ⟨hn, fun hmem => ?_⟩)
    exact hc (List.mem_filter.mp hmem).2
  refine ⟨?_, ?_, ?_⟩
  · intro hkeep
    rw [nodes_foldl_remove]
    refine ⟨hn, fun hmem => ?_⟩
    obtain ⟨-, hstart, p, op, hhead, hop⟩ :=
      (shouldRemove_iff cfg n).mp (List.mem_filter.mp hmem).2
    rcases hkeep with h0 | ⟨q, hq⟩
    · exact hstart h0
    · rw [hq] at hhead
      injection hhead with h1
      injection h1 with h2 h3
      exact hop h3.symm
  · intro hout
    obtain ⟨hinc, hstart, p, op, hhead, hop⟩ := (shouldRemove_iff cfg n).mp (hsr hout)
    refine ⟨hinc, hstart, fun q r hqr => ?_⟩
    rw [hhead] at hqr
    injection hqr with h1
    injection h1 with h2 h3
    rw [← h3]
    exact hop
  · intro hout e he
    have hmem : n ∈ cfg.nodes.filter (shouldRemove cfg) :=
      List.mem_filter.mpr ⟨hn, hsr hout⟩
    exact ((edges_foldl_remove _ _ _).mp he).2 n hmem

/-- C4 witness: in the `exBlocks` static CFG, the JUMPDEST-led block survives
pruning. -/
theorem c4_pruning_preserved_nodes_witness :
    BlockNode.mk exY ∈ (staticSynth exInstrs exBlocks "0xa").nodes ∧
    BlockNode.mk exY ∈
      (remove_unreachable_instruction_blocks (staticSynth exInstrs exBlocks "0xa")).nodes :=
  ⟨by decide,
   (c4_pruning_preserved_nodes (staticSynth exInstrs exBlocks "0xa") (BlockNode.mk exY)
       (by decide)).1
     (Or.inr ⟨4, rfl⟩)⟩

/-- Folding preserves any invariant each step preserves. -/
theorem foldl_preserve {α β : Type} (P : β → Prop) (f : β → α → β)
    (hf : ∀ b a, P b → P (f b a)) (l : List α) (b : β) (hb : P b) :
    P (l.foldl f b) := by
  induction l generalizing b with
  | nil => exact hb
  | cons a l ih => exact ih _ (hf _ _ hb)

/-- `_connect_blocks` keeps edge ids equal to `range next_edge_id`. -/
theorem ids_connectBlocks (c : CFG) (s t : BlockNode) (ty : String)
    (h : c.edges.map Edge.edge_id = List.range c.next_edge_id) :
    (connectBlocks c s t ty).edges.map Edge.edge_id =
      List.range (connectBlocks c s t ty).next_edge_id := by
  simp only [connectBlocks, List.map_append, h, List.range_succ, List.map_cons,
    List.map_nil]

/-- `add_edge` keeps edge ids equal to `range next_edge_id`. -/
theorem ids_add_edge (c : CFG) (s t : BlockNode) (ty : String)
    (h : c.edges.map Edge.edge_id = List.range c.next_edge_id) :
    (add_edge c s t ty).edges.map Edge.edge_id =
      List.range (add_edge c s t ty).next_edge_id := by
  simp only [add_edge, List.map_append, h, List.range_succ, List.map_cons,
    List.map_nil]

/-- The edge-id invariant holds of the synthesized static CFG. -/
theorem ids_synth (instrs : List Instr) (blocks : List Block) (addr : String) :
    (staticSynth instrs blocks addr).edges.map Edge.edge_id =
      List.range (staticSynth instrs blocks addr).next_edge_id := by
  unfold staticSynth
  refine foldl_preserve
    (fun c : CFG => c.edges.map Edge.edge_id = List.range c.next_edge_id)
    (addBlockEdges instrs blocks) ?_ blocks _ (by simp)
  intro c b hc
  unfold addBlockEdges
  exact foldl_preserve
    (fun c : CFG => c.edges.map Edge.edge_id = List.range c.next_edge_id)
    _ (fun c p hcp => ids_connectBlocks c _ p.1 p.2 hcp) _ c hc

/-- Removing nodes only drops edges, in order. -/
theorem edges_sublist_foldl_remove (l : List BlockNode) (c : CFG) :
    ((l.foldl remove_node c).edges).Sublist c.edges := by
  induction l generalizing c with
  | nil => exact List.Sublist.refl _
  | cons x l ih =>
    rw [List.foldl_cons]
    exact (ih (remove_node c x)).trans (List.filter_sublist _)

/-- `txLoop` on a trailing split step stops. -/
theorem txLoop_split_nil (blocks : List Block) (s : Step) (cfg : CFG) (cur : BlockNode)
    (hs : s.opcode ∈ txSplitOpcodes) :
    txLoop blocks [s] cfg cur = cfg := by
  simp only [txLoop, if_pos hs]

/-- `txLoop` skips a split step whose successor's block is unknown: the CFG
and current node are untouched and the loop resumes at the next step. -/
theorem txLoop_split_none (blocks : List Block) (s nxt : Step) (rest : List Step)
    (cfg : CFG) (cur : BlockNode)
    (hs : s.opcode ∈ txSplitOpcodes)
    (hb : blockByStartPc blocks nxt.address nxt.pc = none) :
    txLoop blocks (s :: nxt :: rest) cfg cur = txLoop blocks (nxt :: rest) cfg cur := by
  simp only [txLoop, if_pos hs, hb]

/-- `txLoop` on a resolved split step adds the node (if new) and the edge. -/
theorem txLoop_split_some (blocks : List Block) (s nxt : Step) (rest : List Step)
    (cfg : CFG) (cur : BlockNode) (nb : Block)
    (hs : s.opcode ∈ txSplitOpcodes)
    (hb : blockByStartPc blocks nxt.address nxt.pc = some nb) :
    txLoop blocks (s :: nxt :: rest) cfg cur =
      txLoop blocks (nxt :: rest)
        (add_edge (if hasNodeKey cfg nb.address nb.start_pc then cfg
                   else add_node cfg (BlockNode.mk nb))
          cur (BlockNode.mk nb) (dynEdgeType s.opcode))
        (BlockNode.mk nb) := by
  simp only [txLoop, if_pos hs, hb]

/-- `txLoop` passes over non-split steps. -/
theorem txLoop_nosplit (blocks : List Block) (s : Step) (rest : List Step)
    (cfg : CFG) (cur : BlockNode) (hs : s.opcode ∉ txSplitOpcodes) :
    txLoop blocks (s :: rest) cfg cur = txLoop blocks rest cfg cur := by
  simp only [txLoop, if_neg hs]

/-- `contractLoop` on a trailing split step stops. -/
theorem contractLoop_split_nil (blocks : List Block) (s : Step) (cfg : CFG)
    (cur : BlockNode) (hs : s.opcode ∈ contractSplitOpcodes) :
    contractLoop blocks [s] cfg cur = cfg := by
  simp only [contractLoop, if_pos hs]

/-- `contractLoop` skips a split step whose successor's block is unknown. -/
theorem contractLoop_split_none (blocks : List Block) (s nxt : Step) (rest : List Step)
    (cfg : CFG) (cur : BlockNode)
    (hs : s.opcode ∈ contractSplitOpcodes)
    (hb : findBlockByPc blocks nxt.address nxt.pc = none) :
    contractLoop blocks (s :: nxt :: rest) cfg cur =
      contractLoop blocks (nxt :: rest) cfg cur := by
  simp only [contractLoop, if_pos hs, hb]

/-- `contractLoop` on a resolved split step adds the node (if new) and edge. -/
theorem contractLoop_split_some (blocks : List Block) (s nxt : Step) (rest : List Step)
    (cfg : CFG) (cur : BlockNode) (nb : Block)
    (hs : s.opcode ∈ contractSplitOpcodes)
    (hb : findBlockByPc blocks nxt.address nxt.pc = some nb) :
    contractLoop blocks (s :: nxt :: rest) cfg cur =
      contractLoop blocks (nxt :: rest)
        (add_edge (if hasNodeKey cfg nb.address nb.start_pc then cfg
                   else add_node cfg (BlockNode.mk nb))
          cur (BlockNode.mk nb) (dynEdgeType s.opcode))
        (BlockNode.mk nb) := by
  simp only [contractLoop, if_pos hs, hb]

/-- `contractLoop` passes over non-split steps. -/
theorem contractLoop_nosplit (blocks : List Block) (s : Step) (rest : List Step)
    (cfg : CFG) (cur : BlockNode) (hs : s.opcode ∉ contractSplitOpcodes) :
    contractLoop blocks (s :: rest) cfg cur = contractLoop blocks rest cfg cur := by
  simp only [contractLoop, if_neg hs]

/-- The optional `add_node` of the node-reuse branch keeps the edge-id
invariant (it touches neither edges nor the counter). -/
theorem ids_ite_add_node (cfg : CFG) (c : Prop) [Decidable c] (n : BlockNode)
    (h : cfg.edges.map Edge.edge_id = List.range cfg.next_edge_id) :
    (if c then cfg else add_node cfg n).edges.map Edge.edge_id =
      List.range (if c then cfg else add_node cfg n).next_edge_id := by
  by_cases hc : c
  · rw [if_pos hc]; exact h
  · rw [if_neg hc]; exact h

/-- The edge-id invariant is preserved by the transaction builder's loop. -/
theorem ids_txLoop (blocks : List Block) (steps : List Step) :
    ∀ (cfg : CFG) (cur : BlockNode),
      cfg.edges.map Edge.edge_id = List.range cfg.next_edge_id →
      (txLoop blocks steps cfg cur).edges.map Edge.edge_id =
        List.range (txLoop blocks steps cfg cur).next_edge_id := by
  induction steps with
  | nil => exact fun cfg cur h => h
  | cons s rest ih =>
    intro cfg cur h
    by_cases hs : s.opcode ∈ txSplitOpcodes
    · cases rest with
      | nil => rw [txLoop_split_nil blocks s cfg cur hs]; exact h
      | cons nxt rest2 =>
        cases hb : blockByStartPc blocks nxt.address nxt.pc with
        | none =>
          rw [txLoop_split_none blocks s nxt rest2 cfg cur hs hb]
          exact ih _ _ h
        | some nb =>
          rw [txLoop_split_some blocks s nxt rest2 cfg cur nb hs hb]
          exact ih _ _ (ids_add_edge _ _ _ _ (ids_ite_add_node cfg _ _ h))
    · rw [txLoop_nosplit blocks s rest cfg cur hs]
      exact ih _ _ h

/-- The edge-id invariant is preserved by the per-contract builder's loop. -/
theorem ids_contractLoop (blocks : List Block) (steps : List Step) :
    ∀ (cfg : CFG) (cur : BlockNode),
      cfg.edges.map Edge.edge_id = List.range cfg.next_edge_id →
      (contractLoop blocks steps cfg cur).edges.map Edge.edge_id =
        List.range (contractLoop blocks steps cfg cur).next_edge_id := by
  induction steps with
  | nil => exact fun cfg cur h => h
  | cons s rest ih =>
    intro cfg cur h
    by_cases hs : s.opcode ∈ contractSplitOpcodes
    · cases rest with
      | nil => rw [contractLoop_split_nil blocks s cfg cur hs]; exact h
      | cons nxt rest2 =>
        cases hb : findBlockByPc blocks nxt.address nxt.pc with
        | none =>
          rw [contractLoop_split_none blocks s nxt rest2 cfg cur hs hb]
          exact ih _ _ h
        | some nb =>
          rw [contractLoop_split_some blocks s nxt rest2 cfg cur nb hs hb]
          exact ih _ _ (ids_add_edge _ _ _ _ (ids_ite_add_node cfg _ _ h))
    · rw [contractLoop_nosplit blocks s rest cfg cur hs]
      exact ih _ _ h

/-- C5 amended: edge ids are assigned in insertion order from 0 and never
reused, so they form the contiguous range `[0, E)` for the static CFG
*before* pruning and for every CFG the dynamic builders return; after
pruning the surviving ids remain a (possibly gapped) subsequence of the
original range, in order. -/
theorem c5_edge_ids_amended (instrs : List Instr) (blocks : List Block) (addr : String) :
    (staticSynth instrs blocks addr).edges.map Edge.edge_id =
      List.range (staticSynth instrs blocks addr).edges.length ∧
    ((build_static_cfg instrs blocks addr).edges.map Edge.edge_id).Sublist
      (List.range (staticSynth instrs blocks addr).edges.length) ∧
    (∀ txh steps cfg, construct_cfg blocks txh steps = .ok cfg →
       cfg.edges.map Edge.edge_id = List.range cfg.edges.length) ∧
    (∀ steps cfg, connect_contract_cfg blocks steps = .ok cfg →
       cfg.edges.map Edge.edge_id = List.range cfg.edges.length) := by
  have hl : ∀ c : CFG, c.edges.map Edge.edge_id = List.range c.next_edge_id →
      c.edges.map Edge.edge_id = List.range c.edges.length := by
    intro c hc
    have hlen : c.edges.length = c.next_edge_id := by
      have h2 := congrArg List.length hc
      simpa using h2
    rw [hc, hlen]
  have hsynth' := hl _ (ids_synth instrs blocks addr)
  refine ⟨hsynth', ?_, ?_, ?_⟩
  · have hsub : ((build_static_cfg instrs blocks addr).edges).Sublist
        (staticSynth instrs blocks addr).edges := by
      unfold build_static_cfg remove_unreachable_instruction_blocks
      exact edges_sublist_foldl_remove _ _
    rw [← hsynth']
    exact hsub.map Edge.edge_id
  · intro txh steps cfg hcfg
    simp only [construct_cfg] at hcfg
    split at hcfg
    · cases hcfg
      simp
    · split at hcfg
      · cases hcfg
      · cases hcfg
        exact hl _ (ids_txLoop blocks _ _ _ (by simp [add_node]))
  · intro steps cfg hcfg
    simp only [connect_contract_cfg] at hcfg
    split at hcfg
    · cases hcfg
      simp
    · split at hcfg
      · cases hcfg
        simp
      · split at hcfg
        · cases hcfg
        · cases hcfg
          exact hl _ (ids_contractLoop blocks _ _ _ (by simp [add_node]))

/-- C5 witness: the transaction builder's CFG for the SELFDESTRUCT scenario
has contiguous edge ids (the inner hypotheses discharged at that concrete
run). -/
theorem c5_edge_ids_amended_witness :
    (txLoop c6Blocks c6Steps
        (add_node ⟨"0xt", [], [], 0⟩ (BlockNode.mk c6B0)) (BlockNode.mk c6B0)).edges.map
        Edge.edge_id =
      List.range
        (txLoop c6Blocks c6Steps
          (add_node ⟨"0xt", [], [], 0⟩ (BlockNode.mk c6B0)) (BlockNode.mk c6B0)).edges.length :=
  (c5_edge_ids_amended exInstrs c6Blocks "0xa").2.2.1 "0xt" c6Steps _ rfl

/-- C8: in the transaction builder, a step following a terminator whose
`(address, pc)` resolves to no known block is skipped — no node or edge is
added, no error is raised, and the loop resumes at that step. -/
theorem c8_missing_block_skipped (blocks : List Block) (s nxt : Step)
    (rest : List Step) (cfg : CFG) (cur : BlockNode)
    (hsplit : s.opcode ∈ txSplitOpcodes)
    (hmiss : blockByStartPc blocks nxt.address nxt.pc = none) :
    txLoop blocks (s :: nxt :: rest) cfg cur = txLoop blocks (nxt :: rest) cfg cur :=
  txLoop_split_none blocks s nxt rest cfg cur hsplit hmiss

/-- C8 witness: the skip equality at a concrete JUMP step whose successor
resolves to no block of an empty block index. -/
theorem c8_missing_block_skipped_witness :
    (⟨"0xa", 0, "JUMP", []⟩ : Step).opcode ∈ txSplitOpcodes ∧
    txLoop [] [⟨"0xa", 0, "JUMP", []⟩, ⟨"0xa", 1, "STOP", []⟩] ⟨"0xt", [], [], 0⟩
        (BlockNode.mk c6B0) =
      txLoop [] [⟨"0xa", 1, "STOP", []⟩] ⟨"0xt", [], [], 0⟩ (BlockNode.mk c6B0) :=
  ⟨by decide, c8_missing_block_skipped [] _ _ [] _ _ (by decide) (by decide)⟩

/-- C10 amended: a first step that belongs to no known basic block makes the
transaction builder raise, and makes the per-contract builder raise provided
its block list is non-empty (with an empty block list the per-contract
builder returns an empty CFG instead — see the counterexample). -/
theorem c10_first_step_fatal (blocks : List Block) (txh : String) (s0 : Step)
    (rest : List Step)
    (htx : blockByStartPc blocks s0.address s0.pc = none)
    (hc : findBlockByPc blocks s0.address s0.pc = none)
    (hne : blocks ≠ []) :
    construct_cfg blocks txh (s0 :: rest) = .error "failed to initialize the first block" ∧
    connect_contract_cfg blocks (s0 :: rest) = .error "failed to initialize the first block" := by
  have hbe : (blocks.isEmpty || (s0 :: rest).isEmpty) = false := by
    cases blocks with
    | nil => exact absurd rfl hne
    | cons b bs => rfl
  constructor
  · simp only [construct_cfg, htx]
  · simp [connect_contract_cfg, hbe, hc]
    exact hne

/-- C10 witness: both builders raise for a first step at an address no block
of the non-empty block list covers. -/
theorem c10_first_step_fatal_witness :
    ([c6B0] ≠ ([] : List Block)) ∧
    construct_cfg [c6B0] "0xt" [⟨"0xb", 9, "STOP", []⟩] =
      .error "failed to initialize the first block" ∧
    connect_contract_cfg [c6B0] [⟨"0xb", 9, "STOP", []⟩] =
      .error "failed to initialize the first block" :=
  ⟨by decide,
   (c10_first_step_fatal [c6B0] "0xt" ⟨"0xb", 9, "STOP", []⟩ [] (by decide) (by decide)
     (by decide)).1,
   (c10_first_step_fatal [c6B0] "0xt" ⟨"0xb", 9, "STOP", []⟩ [] (by decide) (by decide)
     (by decide)).2⟩

/-- C7 amended: a step is always emitted with the pre-update `current`
label, and when the (upper-cased) opcode is in the CALL family, the raw
stack holds at least two items, and the second-from-top item normalizes to a
valid (non-empty) address, that normalized address becomes the next step's
label and the previous `current` is pushed onto the call stack; with fewer
stack items or an invalid item the label is unchanged (see the
counterexample). -/
theorem c7_call_address_tracking (st : TraceState) (raw : RawStep) (item : String)
    (hop : upperStr raw.op = "CALL" ∨ upperStr raw.op = "CALLCODE" ∨
           upperStr raw.op = "DELEGATECALL" ∨ upperStr raw.op = "STATICCALL")
    (hlen : 2 ≤ raw.stack.length)
    (hitem : raw.stack.get? (raw.stack.length - 2) = some item)
    (hvalid : normalize_address item ≠ "") :
    traceStep st raw =
      (⟨st.current, raw.pc, upperStr raw.op, normalize_stack raw.stack⟩,
       ⟨normalize_address item, normalize_address item, st.current :: st.call_stack⟩) := by
  rw [List.get?_eq_getElem?] at hitem
  rcases hop with h | h | h | h <;>
    simp [traceStep, traceUpdate, h, hlen, hitem, hvalid]

/-- C7 witness: a concrete lower-case `call` step with a valid
second-from-top callee address switches the label and pushes the caller. -/
theorem c7_call_address_tracking_witness :
    traceStep ⟨c7Dest, c7Dest, [c7Dest]⟩ ⟨5, "call", [c7B, "0x9"]⟩ =
      (⟨c7Dest, 5, upperStr "call", normalize_stack [c7B, "0x9"]⟩,
       ⟨normalize_address c7B, normalize_address c7B, c7Dest :: [c7Dest]⟩) :=
  c7_call_address_tracking ⟨c7Dest, c7Dest, [c7Dest]⟩ ⟨5, "call", [c7B, "0x9"]⟩ c7B
    (by decide) (by decide) (by decide) (by decide)
